/-
Verification of the Cellcano two-round prediction pipeline.

The definitions below are a shallow embedding of the relevant parts of the
repository:
  * `src/Cellcano/utils/_utils.py` : `_select_confident_cells`,
    `_prob_to_label`, `_label_to_onehot`, and the module constants
    `RANDOM_SEED`, `ENTROPY_QUANTILE`;
  * `src/Pyramid/predict.py` : the `predict` function (feature alignment,
    coverage check, entropy computation, tier extraction, label
    reconciliation, and the loading of the feature / encoder files).

Machine floats are modelled by `ℚ` (for the data-flow around the
partitioner) and by `ℝ` (for the entropy analysis); Python's `random.sample`
is modelled by a deterministic sampler driven by the seed (the exact
Mersenne-Twister stream is abstracted by a linear congruential generator,
keeping the contract that `random.sample(pop, k)` returns `k` distinct
elements of `pop` chosen deterministically from the seeded generator state).
Fallible Python steps are modelled in `Except String`.
-/
import Mathlib

/-- Module constant `RANDOM_SEED = 1993` from `_utils.py`. -/
def RANDOM_SEED : Nat := 1993

/-- Module constant `ENTROPY_QUANTILE = 0.4` from `_utils.py`. -/
def ENTROPY_QUANTILE : ℚ := 2/5

/-- One row of `adata.obs` as used by `_select_confident_cells`:
a cell barcode (`obs_names` entry), the predicted cell type stored in the
`celltype_col` column, and the `entropy` column. -/
structure CellRec where
  name : String
  celltype : String
  entropy : ℚ
deriving DecidableEq, Repr

/-- `np.quantile(a, q)` with the default linear interpolation:
on the ascending sort `s` of `a`, with `h = q*(n-1)`, the value
`s[⌊h⌋] + (h-⌊h⌋)*(s[⌊h⌋+1] - s[⌊h⌋])`. -/
def npQuantile (l : List ℚ) (q : ℚ) : ℚ :=
  let s := List.insertionSort (· ≤ ·) l
  let h := q * ((l.length : ℚ) - 1)
  let lo := (⌊h⌋).toNat
  let sLo := s.getD lo 0
  let sHi := s.getD (lo + 1) sLo
  sLo + (h - (⌊h⌋ : ℚ)) * (sHi - sLo)

/-- Advance the modelled PRNG state (a linear congruential step standing in
for the Mersenne-Twister stream of Python's `random` module). -/
def mixSeed (s : Nat) : Nat := (s * 1103515245 + 12345) % 2147483648

/-- Model of `random.sample(l, k)` run on a generator in state `seed`:
draw `k` elements without replacement, each draw removing the chosen
element, the choice at each step being a deterministic function of the
evolving generator state. -/
def pyRandomSample {α : Type} : Nat → List α → Nat → List α
  | _, _, 0 => []
  | _, [], _ + 1 => []
  | seed, a :: as, k + 1 =>
    let i := seed % (a :: as).length
    (a :: as).get ⟨i, Nat.mod_lt _ (Nat.succ_pos _)⟩ ::
      pyRandomSample (mixSeed seed) ((a :: as).eraseIdx i) k

/-- `celltype_df = adata.obs[adata.obs[celltype_col] == celltype]`:
the rows of the given predicted class, in table order. -/
def classCells (cells : List CellRec) (ct : String) : List CellRec :=
  cells.filter (fun c => c.celltype == ct)

/-- `cells = celltype_df.index[np.where(celltype_df['entropy'] <= entropy_cutoff)[0]].tolist()`
with `entropy_cutoff = np.quantile(celltype_df['entropy'], q=ENTROPY_QUANTILE)`:
the barcodes of the class rows whose entropy is at or below the within-class
quantile threshold. -/
def candidateCells (cells : List CellRec) (ct : String) : List String :=
  let df := classCells cells ct
  let cutoff := npQuantile (df.map CellRec.entropy) ENTROPY_QUANTILE
  (df.filter (fun c => decide (c.entropy ≤ cutoff))).map CellRec.name

/-- `num_cells = math.ceil(ENTROPY_QUANTILE * celltype_df.shape[0])`. -/
def targetCount (cells : List CellRec) (ct : String) : Nat :=
  (⌈ENTROPY_QUANTILE * ((classCells cells ct).length : ℚ)⌉).toNat

/-- The per-class body of the loop in `_select_confident_cells`:
if the candidates exceed the target count, reseed with `RANDOM_SEED` and
subsample down to the target count; otherwise keep all candidates. -/
def lowCellsForClass (cells : List CellRec) (ct : String) : List String :=
  let cands := candidateCells cells ct
  let n := targetCount cells ct
  if n < cands.length then pyRandomSample RANDOM_SEED cands n else cands

/-- `set(adata.obs[celltype_col])`: the distinct predicted classes (the
Python iteration order does not affect any output below; a canonical
first-occurrence order is used). -/
def distinctCelltypes (cells : List CellRec) : List String :=
  (cells.map CellRec.celltype).dedup

/-- `low_entropy_cells`: the concatenation of the per-class selections. -/
def lowEntropyCells (cells : List CellRec) : List String :=
  (distinctCelltypes cells).flatMap (lowCellsForClass cells)

/-- The `entropy_status` column written by `_select_confident_cells`:
`"low"` on `low_entropy_cells`, `"high"` on
`set(adata.obs_names) - set(low_entropy_cells)`. -/
def entropyStatus (cells : List CellRec) (name : String) : String :=
  if name ∈ lowEntropyCells cells then "low" else "high"

/-- Stateful variant of the per-class loop body, threading the `random`
module's generator state: `random.seed(RANDOM_SEED)` replaces the incoming
state before the `random.sample` call, which then advances it. -/
def lowCellsForClassSt (st : Nat) (cells : List CellRec) (ct : String) :
    List String × Nat :=
  let cands := candidateCells cells ct
  let n := targetCount cells ct
  if n < cands.length then
    (pyRandomSample RANDOM_SEED cands n, mixSeed RANDOM_SEED)
  else (cands, st)

/-- Stateful variant of `_select_confident_cells`'s accumulation of
`low_entropy_cells`, threading the process-wide `random` state through the
per-class loop. -/
def lowEntropyCellsSt (st : Nat) (cells : List CellRec) :
    List String × Nat :=
  (distinctCelltypes cells).foldl
    (fun acc ct =>
      let r := lowCellsForClassSt acc.2 cells ct
      (acc.1 ++ r.1, r.2))
    ([], st)

/-- The inner loop of the feature-matching step in `predict`
(`predict.py` lines 46-55): scan the target genes in order, returning the
index of the first one equal to the reference feature, or `-1` when none
matches; `k` is the index of the head of the remaining list. -/
def firstIdxAux (f : String) : List String → Nat → Int
  | [], _ => -1
  | t :: ts, k => if t == f then (k : Int) else firstIdxAux f ts (k + 1)

/-- Position of the first occurrence of feature `f` among the target genes,
`-1` when absent. -/
def firstIdx (targets : List String) (f : String) : Int :=
  firstIdxAux f targets 0

/-- `feature_idx` as built by the double loop of `predict`
(`predict.py` lines 44-55): one entry per reference feature. -/
def alignIndex (features targets : List String) : List Int :=
  features.map (firstIdx targets)

/-- `find_cnt`: the number of reference features found in the target. -/
def findCnt (features targets : List String) : Nat :=
  (features.filter (fun f => f ∈ targets)).length

/-- Python's `len` applied to an `int` value: always a `TypeError`
(dynamic semantics of the expression `len(find_cnt)` at `predict.py:57`,
where `find_cnt` is an integer counter). -/
def pyLenOfInt (_ : Int) : Except String Nat :=
  .error "TypeError: object of type int has no len()"

/-- The coverage-check branch `if len(find_cnt) < 0.7*len(features)` at
`predict.py:57`, in the dynamic semantics of Python: evaluating
`len(find_cnt)` raises before the comparison is made. -/
def coverageBranch (find_cnt : Int) (features : List String) :
    Except String Bool := do
  let n ← pyLenOfInt find_cnt
  pure (decide ((n : ℚ) < 7/10 * (features.length : ℚ)))

/-- numpy integer column indexing: a negative index `i` into a row of
width `m` wraps around to `m + i`. -/
def pyColIndex (m : Nat) (i : Int) : Int :=
  if i < 0 then (m : Int) + i else i

/-- One row of `test_adata[:, feature_idx]` (`predict.py:62`): the row is
re-projected through the index list with numpy indexing semantics, so a
`-1` entry selects the last existing column. -/
def reprojectRow (row : List ℚ) (idx : List Int) : List ℚ :=
  idx.map (fun i => row.getD (pyColIndex row.length i).toNat 0)

/-- `test_adata[:, feature_idx]` on the whole matrix. -/
def reproject (mat : List (List ℚ)) (idx : List Int) : List (List ℚ) :=
  mat.map (fun row => reprojectRow row idx)

/-- numpy `argmax` over one row: index of the first occurrence of the
maximum value. -/
def argmaxIdx : List ℚ → Nat
  | [] => 0
  | [_] => 0
  | x :: y :: rest =>
    let j := argmaxIdx (y :: rest)
    if x < (y :: rest).getD j 0 then j + 1 else 0

/-- A `dict` value `encoders[k]` lookup (first entry with key `k`; the
association list below is kept key-unique by `insertEnc`). -/
def lookupEnc (e : List (Nat × String)) (k : Nat) : String :=
  ((e.lookup k).getD "")

/-- `encoders[int(line_info[0])] = line_info[1]` dict-assignment semantics:
an existing key is overwritten in place, a new key is appended. -/
def insertEnc (e : List (Nat × String)) (k : Nat) (v : String) :
    List (Nat × String) :=
  if e.any (fun p => p.1 == k) then
    e.map (fun p => if p.1 == k then (k, v) else p)
  else e ++ [(k, v)]

/-- Python's `str.strip()`: drop leading and trailing whitespace. -/
def pyStrip (s : String) : String :=
  String.mk
    (((s.data.dropWhile Char.isWhitespace).reverse.dropWhile
      Char.isWhitespace).reverse)

/-- `split(':')` on the underlying character list. -/
def splitColonChars : List Char → List (List Char)
  | [] => [[]]
  | c :: rest =>
    let r := splitColonChars rest
    if c = ':' then [] :: r
    else (c :: r.headD []) :: r.tail

/-- Python's `s.split(':')`. -/
def pySplitColon (s : String) : List String :=
  (splitColonChars s.data).map String.mk

/-- Python's `int(s)` on a well-formed decimal string. -/
def pyInt (s : String) : Nat :=
  s.data.foldl (fun acc c => acc * 10 + (c.toNat - 48)) 0

/-- Parsing of one line of the encoder file (`predict.py` lines 30-32):
`line_info = line.strip().split(':')`, then the dict assignment. -/
def parseEncoderLine (e : List (Nat × String)) (line : String) :
    List (Nat × String) :=
  let parts := pySplitColon (pyStrip line)
  insertEnc e (pyInt (parts.headD "")) (parts.getD 1 "")

/-- The encoder-file reading loop of `predict` (`predict.py` lines 28-32). -/
def parseEncoders (lines : List String) : List (Nat × String) :=
  lines.foldl parseEncoderLine []

/-- The `sys.exit` message at `predict.py:22`. -/
def PREDICT_EXIT_MSG : String :=
  "Feature file or encoder mapping does not exist! Please check your tained model was trained successfully."

/-- Lines 19-32 of `predict`: check that the feature file and the encoder
file exist (a file is `none` when missing), then read the feature list
(stripping each line) and the encoder mapping. No validation of the
mapping is performed beyond the parse. -/
def loadPredictConfig (featureLines encoderLines : Option (List String)) :
    Except String (List String × List (Nat × String)) :=
  match featureLines, encoderLines with
  | some fs, some es => .ok (fs.map pyStrip, parseEncoders es)
  | _, _ => .error PREDICT_EXIT_MSG

/-- The encoder mapping is a bijection: no duplicate indices and no
duplicate labels. -/
def encBijective (e : List (Nat × String)) : Prop :=
  (e.map Prod.fst).Nodup ∧ (e.map Prod.snd).Nodup

/-- One row of `test_adata.obs` at the point of the two-round branch of
`predict`: barcode, the `firstround_pred_celltype` column (also the value
stored in `pred_celltype` at line 70), and the `entropy_status` column. -/
structure ObsRow where
  name : String
  firstRound : String
  status : String
deriving DecidableEq, Repr

/-- `_prob_to_label` from `_utils.py`: per-row `argmax` then encoder
lookup. -/
def probToLabel (yPred : List (List ℚ)) (encoders : List (Nat × String)) :
    List String :=
  yPred.map (fun row => lookupEnc encoders (argmaxIdx row))

/-- `high_entropy_cells` at `predict.py:85`: barcodes with
`entropy_status == 'high'`, in table order. -/
def highNamesOf (obs : List ObsRow) : List String :=
  (obs.filter (fun r => r.status == "high")).map ObsRow.name

/-- The final `pred_celltype` column of the output table written at
`predict.py:109`: line 70 sets every cell's label to its first-round label,
and line 108 (`obs.loc[high_entropy_cells, ...] = pred_celltypes`)
overwrites the high-tier cells, pairing `high_entropy_cells` positionally
with the student predictions `_prob_to_label(y_pred_tgt, encoders)`. -/
def finalLabels (obs : List ObsRow) (yPredTgt : List (List ℚ))
    (encoders : List (Nat × String)) : List (String × String) :=
  let assign := (highNamesOf obs).zip (probToLabel yPredTgt encoders)
  obs.map (fun r =>
    (r.name, match assign.lookup r.name with
             | some v => v
             | none => r.firstRound))

/-- The call `_utils._label_to_onehot(test_ref_adata.obs[...].tolist())` at
`predict.py:90`: `_label_to_onehot` (at `_utils.py:231`) requires the two
positional parameters `labels` and `encoders`, but the call site passes
only `labels`, so in Python's dynamic semantics the call raises before the
function body runs. -/
def labelToOnehotCall (_ : List String) : Except String (List (List ℚ)) :=
  .error "TypeError: _label_to_onehot() missing 1 required positional argument: encoders"

/-- Lines 84-90 of `predict`, leading into teacher training: extract the
low-tier rows and their first-round labels, then build the one-hot matrix.
The code performs no check that the low-tier set is non-empty or
class-diverse before this point — the next fallible step is the
`_label_to_onehot` call itself. -/
def secondRoundPreamble (obs : List ObsRow) :
    Except String (List (List ℚ)) :=
  let lowLabels := (obs.filter (fun r => r.status == "low")).map ObsRow.firstRound
  labelToOnehotCall lowLabels

/-- One summand of the entropy sum at `predict.py:79`
(`-np.nansum(y_pred[i]*np.log(y_pred[i]))`): `np.nansum` drops the
`0 * log 0 = NaN` terms, which realizes the convention `0·log 0 = 0`. -/
noncomputable def entropyTerm (x : ℝ) : ℝ :=
  if x = 0 then 0 else x * Real.log x

/-- The per-cell entropy of a class probability distribution. -/
noncomputable def cellEntropy (p : List ℝ) : ℝ :=
  -((p.map entropyTerm).sum)

/-! ### Properties of the modelled sampler -/

theorem length_pyRandomSample {α : Type} :
    ∀ (k : Nat) (seed : Nat) (l : List α),
      (pyRandomSample seed l k).length = min k l.length := by
  intro k
  induction k with
  | zero => intro seed l; simp [pyRandomSample]
  | succ k ih =>
    intro seed l
    cases l with
    | nil => simp [pyRandomSample]
    | cons a as =>
      simp only [pyRandomSample, List.length_cons]
      rw [ih]
      have hi : seed % (as.length + 1) < as.length + 1 :=
        Nat.mod_lt _ (Nat.succ_pos _)
      rw [List.length_eraseIdx]
      simp only [List.length_cons, hi, if_pos]
      omega

theorem pyRandomSample_subset {α : Type} :
    ∀ (k : Nat) (seed : Nat) (l : List α),
      ∀ x ∈ pyRandomSample seed l k, x ∈ l := by
  intro k
  induction k with
  | zero => intro seed l x hx; simp [pyRandomSample] at hx
  | succ k ih =>
    intro seed l x hx
    cases l with
    | nil => simp [pyRandomSample] at hx
    | cons a as =>
      simp only [pyRandomSample, List.mem_cons] at hx
      rcases hx with hx | hx
      · rw [hx]; exact List.get_mem _ _ _
      · have hmem := ih (mixSeed seed) ((a :: as).eraseIdx _) x hx
        exact (List.eraseIdx_sublist (a :: as) _).subset hmem

theorem pyRandomSample_nodup {α : Type} [DecidableEq α] :
    ∀ (k : Nat) (seed : Nat) (l : List α), l.Nodup →
      (pyRandomSample seed l k).Nodup := by
  intro k
  induction k with
  | zero => intro seed l _; simp [pyRandomSample]
  | succ k ih =>
    intro seed l hl
    cases l with
    | nil => simp [pyRandomSample]
    | cons a as =>
      simp only [pyRandomSample]
      refine List.nodup_cons.mpr ⟨?_, ?_⟩
      · intro hmem
        have hsub := pyRandomSample_subset k (mixSeed seed)
          ((a :: as).eraseIdx (seed % (a :: as).length)) _ hmem
        have herase := hl.erase_get
          ⟨seed % (a :: as).length, Nat.mod_lt _ (Nat.succ_pos _)⟩
        rw [← herase] at hsub
        exact hl.not_mem_erase hsub
      · exact ih _ _ ((List.eraseIdx_sublist (a :: as) _).nodup hl)

/-! ### Properties of the entropy partitioner -/

theorem mem_candidateCells {cells : List CellRec} {ct x : String}
    (h : x ∈ candidateCells cells ct) :
    x ∈ (classCells cells ct).map CellRec.name := by
  simp only [candidateCells, List.mem_map, List.mem_filter] at h
  rcases h with ⟨c, ⟨hc, _⟩, rfl⟩
  exact List.mem_map_of_mem _ hc

theorem mem_classCells {cells : List CellRec} {ct : String} {c : CellRec}
    (h : c ∈ classCells cells ct) : c ∈ cells ∧ c.celltype = ct := by
  simp only [classCells, List.mem_filter, beq_iff_eq] at h
  exact h

theorem lowCellsForClass_subset {cells : List CellRec} {ct x : String}
    (h : x ∈ lowCellsForClass cells ct) : x ∈ candidateCells cells ct := by
  simp only [lowCellsForClass] at h
  split at h
  · exact pyRandomSample_subset _ _ _ x h
  · exact h

theorem nodup_classCells_names {cells : List CellRec} {ct : String}
    (hN : (cells.map CellRec.name).Nodup) :
    ((classCells cells ct).map CellRec.name).Nodup :=
  ((List.filter_sublist cells).map CellRec.name).nodup hN

theorem nodup_candidateCells {cells : List CellRec} {ct : String}
    (hN : (cells.map CellRec.name).Nodup) :
    (candidateCells cells ct).Nodup := by
  have hsub : List.Sublist (candidateCells cells ct)
      ((classCells cells ct).map CellRec.name) := by
    simp only [candidateCells]
    exact (List.filter_sublist (classCells cells ct)).map CellRec.name
  exact hsub.nodup (nodup_classCells_names hN)

theorem nodup_lowCellsForClass {cells : List CellRec} {ct : String}
    (hN : (cells.map CellRec.name).Nodup) :
    (lowCellsForClass cells ct).Nodup := by
  simp only [lowCellsForClass]
  split
  · exact pyRandomSample_nodup _ _ _ (nodup_candidateCells hN)
  · exact nodup_candidateCells hN

theorem length_lowCellsForClass (cells : List CellRec) (ct : String) :
    (lowCellsForClass cells ct).length
      = min (candidateCells cells ct).length (targetCount cells ct) := by
  simp only [lowCellsForClass]
  split
  · rw [length_pyRandomSample]; omega
  · omega

theorem mem_lowEntropyCells_iff {cells : List CellRec} {c : CellRec}
    (hN : (cells.map CellRec.name).Nodup) (hc : c ∈ cells) :
    c.name ∈ lowEntropyCells cells
      ↔ c.name ∈ lowCellsForClass cells c.celltype := by
  constructor
  · intro h
    simp only [lowEntropyCells, List.mem_flatMap] at h
    rcases h with ⟨ct', _, hmem⟩
    have hcand := mem_candidateCells (lowCellsForClass_subset hmem)
    simp only [List.mem_map] at hcand
    rcases hcand with ⟨c', hc', hname⟩
    rcases mem_classCells hc' with ⟨hc'cells, hct'⟩
    have : c' = c := List.inj_on_of_nodup_map hN hc'cells hc hname
    rw [← hct', this] at hmem
    exact hmem
  · intro h
    simp only [lowEntropyCells, List.mem_flatMap]
    exact ⟨c.celltype,
      List.mem_dedup.mpr (List.mem_map_of_mem CellRec.celltype hc), h⟩

theorem entropyStatus_eq_low_iff {cells : List CellRec} {c : CellRec}
    (hN : (cells.map CellRec.name).Nodup) (hc : c ∈ cells) :
    entropyStatus cells c.name = "low"
      ↔ c.name ∈ lowCellsForClass cells c.celltype := by
  rw [← mem_lowEntropyCells_iff hN hc]
  simp only [entropyStatus]
  split
  · simpa
  · simpa

theorem length_filter_comp {α β : Type} (f : α → β) (p : β → Bool) :
    ∀ l : List α,
      (l.filter (fun x => p (f x))).length = ((l.map f).filter p).length := by
  intro l
  induction l with
  | nil => rfl
  | cons a t ih =>
    simp only [List.map_cons, List.filter_cons]
    cases p (f a) <;> simp [ih]

theorem length_filter_not (p : α → Bool) :
    ∀ l : List α,
      (l.filter p).length + (l.filter (fun x => !(p x))).length = l.length := by
  intro l
  induction l with
  | nil => rfl
  | cons a t ih =>
    simp only [List.filter_cons]
    cases p a <;> simp <;> omega

theorem length_filter_mem {S L : List String} (hS : S.Nodup) (hL : L.Nodup)
    (hsub : ∀ x ∈ L, x ∈ S) :
    (S.filter (fun x => decide (x ∈ L))).length = L.length := by
  have h1 : (S.filter (fun x => decide (x ∈ L))).Nodup :=
    hS.filter _
  rw [← List.toFinset_card_of_nodup h1, ← List.toFinset_card_of_nodup hL]
  congr 1
  ext x
  simp only [List.mem_toFinset, List.mem_filter, decide_eq_true_iff]
  exact ⟨fun h => h.2, fun h => ⟨hsub x h, h⟩⟩

/-- C1: for every predicted class `ct` with at least one cell, the number of
class cells tiered `"low"` equals
`min (candidate count) (ceil (ENTROPY_QUANTILE * class size))`; moreover
every cell of the class carries exactly one tier (it is `"low"` exactly when
it is not `"high"`), and the `"low"` and `"high"` subsets of the class
partition it. -/
theorem C1_low_tier_size_and_partition (cells : List CellRec) (ct : String)
    (hN : (cells.map CellRec.name).Nodup)
    (hct : ct ∈ cells.map CellRec.celltype) :
    ((classCells cells ct).filter
        (fun c => entropyStatus cells c.name == "low")).length
      = min (candidateCells cells ct).length (targetCount cells ct)
    ∧ (∀ c ∈ classCells cells ct,
        (entropyStatus cells c.name = "low"
          ↔ ¬ entropyStatus cells c.name = "high"))
    ∧ ((classCells cells ct).filter
        (fun c => entropyStatus cells c.name == "low")).length
      + ((classCells cells ct).filter
        (fun c => entropyStatus cells c.name == "high")).length
      = (classCells cells ct).length := by
  refine ⟨?_, ?_, ?_⟩
  · have hcongr : ∀ c ∈ classCells cells ct,
        (entropyStatus cells c.name == "low")
          = decide (c.name ∈ lowCellsForClass cells ct) := by
      intro c hc
      rcases mem_classCells hc with ⟨hcc, hctc⟩
      have hiff := entropyStatus_eq_low_iff hN hcc
      rw [hctc] at hiff
      rw [beq_eq_decide]
      exact decide_eq_decide.mpr hiff
    rw [List.filter_congr hcongr]
    have h2 := length_filter_comp CellRec.name
      (fun x => decide (x ∈ lowCellsForClass cells ct)) (classCells cells ct)
    rw [h2]
    have h3 := length_filter_mem (@nodup_classCells_names cells ct hN)
      (@nodup_lowCellsForClass cells ct hN)
      (fun x hx => mem_candidateCells (lowCellsForClass_subset hx))
    rw [h3, length_lowCellsForClass]
  · intro c _
    by_cases h : c.name ∈ lowEntropyCells cells <;>
      simp [entropyStatus, h]
  · have hcongr : ∀ c ∈ classCells cells ct,
        (entropyStatus cells c.name == "high")
          = !(entropyStatus cells c.name == "low") := by
      intro c _
      by_cases h : c.name ∈ lowEntropyCells cells <;>
        simp [entropyStatus, h]
    rw [List.filter_congr hcongr]
    exact length_filter_not _ _

/-- Witness for C1: the spec's T-cell scenario — ten cells of one class,
six of them tied at the 0.4-quantile boundary of the entropy column. -/
theorem C1_low_tier_size_and_partition_witness :
    ((classCells
        [⟨"c0", "T-cell", 1⟩, ⟨"c1", "T-cell", 1⟩, ⟨"c2", "T-cell", 1⟩,
         ⟨"c3", "T-cell", 1⟩, ⟨"c4", "T-cell", 1⟩, ⟨"c5", "T-cell", 1⟩,
         ⟨"c6", "T-cell", 2⟩, ⟨"c7", "T-cell", 2⟩, ⟨"c8", "T-cell", 2⟩,
         ⟨"c9", "T-cell", 2⟩] "T-cell").filter
        (fun c => entropyStatus
          [⟨"c0", "T-cell", 1⟩, ⟨"c1", "T-cell", 1⟩, ⟨"c2", "T-cell", 1⟩,
           ⟨"c3", "T-cell", 1⟩, ⟨"c4", "T-cell", 1⟩, ⟨"c5", "T-cell", 1⟩,
           ⟨"c6", "T-cell", 2⟩, ⟨"c7", "T-cell", 2⟩, ⟨"c8", "T-cell", 2⟩,
           ⟨"c9", "T-cell", 2⟩] c.name == "low")).length
      = min (candidateCells
          [⟨"c0", "T-cell", 1⟩, ⟨"c1", "T-cell", 1⟩, ⟨"c2", "T-cell", 1⟩,
           ⟨"c3", "T-cell", 1⟩, ⟨"c4", "T-cell", 1⟩, ⟨"c5", "T-cell", 1⟩,
           ⟨"c6", "T-cell", 2⟩, ⟨"c7", "T-cell", 2⟩, ⟨"c8", "T-cell", 2⟩,
           ⟨"c9", "T-cell", 2⟩] "T-cell").length
          (targetCount
            [⟨"c0", "T-cell", 1⟩, ⟨"c1", "T-cell", 1⟩, ⟨"c2", "T-cell", 1⟩,
             ⟨"c3", "T-cell", 1⟩, ⟨"c4", "T-cell", 1⟩, ⟨"c5", "T-cell", 1⟩,
             ⟨"c6", "T-cell", 2⟩, ⟨"c7", "T-cell", 2⟩, ⟨"c8", "T-cell", 2⟩,
             ⟨"c9", "T-cell", 2⟩] "T-cell") :=
  (C1_low_tier_size_and_partition _ "T-cell" (by decide) (by decide)).1

theorem lowCellsForClassSt_fst (st : Nat) (cells : List CellRec)
    (ct : String) :
    (lowCellsForClassSt st cells ct).1 = lowCellsForClass cells ct := by
  simp only [lowCellsForClassSt, lowCellsForClass]
  split <;> rfl

theorem lowEntropyCellsSt_foldl (cells : List CellRec) :
    ∀ (L : List String) (acc : List String) (st : Nat),
      (L.foldl (fun acc ct =>
          let r := lowCellsForClassSt acc.2 cells ct
          (acc.1 ++ r.1, r.2)) (acc, st)).1
        = acc ++ L.flatMap (lowCellsForClass cells) := by
  intro L
  induction L with
  | nil => intro acc st; simp
  | cons ct L ih =>
    intro acc st
    simp only [List.foldl_cons, List.flatMap_cons]
    rw [ih, lowCellsForClassSt_fst, List.append_assoc]

/-- C2: the entropy partitioning is deterministic — whatever the state of
the process-wide random generator when `_select_confident_cells` is
entered, the selected low-tier cell list is the same, because
`random.seed(RANDOM_SEED)` is re-applied immediately before every
`random.sample` call; in particular two runs on the same input agree, and
both agree with the stateless model. -/
theorem C2_partition_deterministic (st₁ st₂ : Nat) (cells : List CellRec) :
    (lowEntropyCellsSt st₁ cells).1 = (lowEntropyCellsSt st₂ cells).1
    ∧ (lowEntropyCellsSt st₁ cells).1 = lowEntropyCells cells := by
  have h : ∀ st : Nat,
      (lowEntropyCellsSt st cells).1 = lowEntropyCells cells := by
    intro st
    simp only [lowEntropyCellsSt, lowEntropyCells]
    exact lowEntropyCellsSt_foldl cells (distinctCelltypes cells) [] st
  exact ⟨(h st₁).trans (h st₂).symm, h st₁⟩

theorem exists_le_npQuantile (l : List ℚ) (hne : l ≠ []) :
    ∃ x ∈ l, x ≤ npQuantile l ENTROPY_QUANTILE := by
  have hperm := List.perm_insertionSort (· ≤ ·) l
  have hsorted := List.sorted_insertionSort (· ≤ ·) l
  have hlen : (List.insertionSort (· ≤ ·) l).length = l.length :=
    hperm.length_eq
  have hnpos : 0 < l.length := List.length_pos.mpr hne
  have hsne : List.insertionSort (· ≤ ·) l ≠ [] := by
    intro hc; rw [hc] at hlen; simp at hlen; omega
  obtain ⟨a, t, hat⟩ := List.exists_cons_of_ne_nil hsne
  have hmin : ∀ y ∈ List.insertionSort (· ≤ ·) l, a ≤ y := by
    intro y hy
    rw [hat] at hy hsorted
    rcases List.mem_cons.mp hy with rfl | hy
    · exact le_refl y
    · exact (List.sorted_cons.mp hsorted).1 y hy
  have hamem : a ∈ l := hperm.mem_iff.mp (by rw [hat]; exact List.mem_cons_self a t)
  refine ⟨a, hamem, ?_⟩
  simp only [npQuantile, ENTROPY_QUANTILE]
  have h0 : (0:ℚ) ≤ 2/5 * ((l.length : ℚ) - 1) := by
    have : (1:ℚ) ≤ (l.length : ℚ) := by exact_mod_cast hnpos
    nlinarith
  have hle : 2/5 * ((l.length : ℚ) - 1) ≤ (l.length : ℚ) - 1 := by
    have : (1:ℚ) ≤ (l.length : ℚ) := by exact_mod_cast hnpos
    nlinarith
  have hfl0 : (0:ℤ) ≤ ⌊2/5 * ((l.length : ℚ) - 1)⌋ := Int.floor_nonneg.mpr h0
  have hfl1 : ⌊2/5 * ((l.length : ℚ) - 1)⌋ ≤ (l.length : ℤ) - 1 := by
    have hcast : ((l.length : ℚ) - 1) = (((l.length : ℤ) - 1 : ℤ) : ℚ) := by
      push_cast; ring
    calc ⌊2/5 * ((l.length : ℚ) - 1)⌋
        ≤ ⌊((l.length : ℚ) - 1)⌋ := Int.floor_le_floor hle
      _ = (l.length : ℤ) - 1 := by rw [hcast, Int.floor_intCast]
  have hlo : (⌊2/5 * ((l.length : ℚ) - 1)⌋).toNat
      < (List.insertionSort (· ≤ ·) l).length := by
    rw [hlen]; omega
  have hgetD : (List.insertionSort (· ≤ ·) l).getD
      ((⌊2/5 * ((l.length : ℚ) - 1)⌋).toNat) 0
      = (List.insertionSort (· ≤ ·) l).get
        ⟨(⌊2/5 * ((l.length : ℚ) - 1)⌋).toNat, hlo⟩ := by
    rw [List.getD_eq_getElem?_getD, List.getElem?_eq_getElem hlo]; rfl
  have haLo : a ≤ (List.insertionSort (· ≤ ·) l).getD
      ((⌊2/5 * ((l.length : ℚ) - 1)⌋).toNat) 0 := by
    rw [hgetD]; exact hmin _ (List.get_mem _ _ _)
  have hfrac : (0:ℚ) ≤ 2/5 * ((l.length : ℚ) - 1)
      - (⌊2/5 * ((l.length : ℚ) - 1)⌋ : ℚ) :=
    sub_nonneg.mpr (Int.floor_le _)
  by_cases hhi : (⌊2/5 * ((l.length : ℚ) - 1)⌋).toNat + 1
      < (List.insertionSort (· ≤ ·) l).length
  · have hgetD2 : (List.insertionSort (· ≤ ·) l).getD
        ((⌊2/5 * ((l.length : ℚ) - 1)⌋).toNat + 1)
        ((List.insertionSort (· ≤ ·) l).getD
          ((⌊2/5 * ((l.length : ℚ) - 1)⌋).toNat) 0)
        = (List.insertionSort (· ≤ ·) l).get
          ⟨(⌊2/5 * ((l.length : ℚ) - 1)⌋).toNat + 1, hhi⟩ := by
      rw [List.getD_eq_getElem?_getD, List.getElem?_eq_getElem hhi]; rfl
    have hmono : (List.insertionSort (· ≤ ·) l).get
        ⟨(⌊2/5 * ((l.length : ℚ) - 1)⌋).toNat, hlo⟩
        ≤ (List.insertionSort (· ≤ ·) l).get
          ⟨(⌊2/5 * ((l.length : ℚ) - 1)⌋).toNat + 1, hhi⟩ := by
      exact hsorted.rel_get_of_lt (by simp)
    rw [hgetD2, hgetD] at *
    nlinarith [hmin _ (List.get_mem (List.insertionSort (· ≤ ·) l)
      ((⌊2/5 * ((l.length : ℚ) - 1)⌋).toNat) hlo)]
  · have hgetD2 : (List.insertionSort (· ≤ ·) l).getD
        ((⌊2/5 * ((l.length : ℚ) - 1)⌋).toNat + 1)
        ((List.insertionSort (· ≤ ·) l).getD
          ((⌊2/5 * ((l.length : ℚ) - 1)⌋).toNat) 0)
        = (List.insertionSort (· ≤ ·) l).getD
          ((⌊2/5 * ((l.length : ℚ) - 1)⌋).toNat) 0 := by
      rw [List.getD_eq_getElem?_getD (List.insertionSort (· ≤ ·) l)
        ((⌊2/5 * ((l.length : ℚ) - 1)⌋).toNat + 1),
        List.getElem?_eq_none (by omega)]
      rfl
    rw [hgetD2]
    nlinarith [haLo]

theorem candidateCells_ne_nil {cells : List CellRec} {ct : String}
    (h : ct ∈ cells.map CellRec.celltype) :
    candidateCells cells ct ≠ [] := by
  rcases List.mem_map.mp h with ⟨c, hc, hctc⟩
  have hcls : c ∈ classCells cells ct := by
    simp only [classCells, List.mem_filter, beq_iff_eq]
    exact ⟨hc, hctc⟩
  have hmapne : (classCells cells ct).map CellRec.entropy ≠ [] := by
    simp only [ne_eq, List.map_eq_nil_iff]
    exact List.ne_nil_of_mem hcls
  obtain ⟨x, hx, hxle⟩ := exists_le_npQuantile _ hmapne
  rcases List.mem_map.mp hx with ⟨c₀, hc₀, rfl⟩
  have : c₀.name ∈ candidateCells cells ct := by
    simp only [candidateCells, List.mem_map, List.mem_filter]
    exact ⟨c₀, ⟨hc₀, by simpa using hxle⟩, rfl⟩
  exact List.ne_nil_of_mem this

theorem targetCount_pos {cells : List CellRec} {ct : String}
    (h : ct ∈ cells.map CellRec.celltype) :
    0 < targetCount cells ct := by
  rcases List.mem_map.mp h with ⟨c, hc, hctc⟩
  have hcls : c ∈ classCells cells ct := by
    simp only [classCells, List.mem_filter, beq_iff_eq]
    exact ⟨hc, hctc⟩
  have hpos : 0 < (classCells cells ct).length := List.length_pos.mpr
    (List.ne_nil_of_mem hcls)
  simp only [targetCount, ENTROPY_QUANTILE]
  have hq : (0:ℚ) < 2/5 * ((classCells cells ct).length : ℚ) := by
    have : (1:ℚ) ≤ ((classCells cells ct).length : ℚ) := by exact_mod_cast hpos
    nlinarith
  have := Int.ceil_pos.mpr hq
  omega

theorem lowCellsForClass_ne_nil {cells : List CellRec} {ct : String}
    (h : ct ∈ cells.map CellRec.celltype) :
    lowCellsForClass cells ct ≠ [] := by
  have hcand := candidateCells_ne_nil h
  have htc := targetCount_pos h
  simp only [lowCellsForClass]
  split
  · have hlen := length_pyRandomSample (targetCount cells ct) RANDOM_SEED
      (candidateCells cells ct)
    have hcpos : 0 < (candidateCells cells ct).length :=
      List.length_pos.mpr hcand
    intro hc
    rw [hc] at hlen
    simp at hlen
    omega
  · exact hcand

/-- C10: every predicted class with at least one cell contributes at least
one low-tier cell — the within-class 0.4-quantile of entropy is at least
the class minimum, so the candidate set is non-empty, the target count
`ceil(0.4 * class size)` is at least one, and the selected subset is
therefore non-empty. -/
theorem C10_nonempty_class_has_low_cell (cells : List CellRec) (ct : String)
    (hct : ct ∈ cells.map CellRec.celltype) :
    ∃ c ∈ cells, c.celltype = ct ∧ entropyStatus cells c.name = "low" := by
  obtain ⟨y, hy⟩ := List.exists_mem_of_ne_nil _ (lowCellsForClass_ne_nil hct)
  have hcand := lowCellsForClass_subset hy
  have hclass := mem_candidateCells hcand
  rcases List.mem_map.mp hclass with ⟨c, hcls, hname⟩
  rcases mem_classCells hcls with ⟨hc, hctc⟩
  refine ⟨c, hc, hctc, ?_⟩
  have hmem : c.name ∈ lowEntropyCells cells := by
    simp only [lowEntropyCells, List.mem_flatMap]
    refine ⟨ct, List.mem_dedup.mpr hct, ?_⟩
    rw [hname]; exact hy
  simp [entropyStatus, hmem]

/-- Witness for C10: a single one-cell class. -/
theorem C10_nonempty_class_has_low_cell_witness :
    ∃ c ∈ [(⟨"a", "T", 1⟩ : CellRec)], c.celltype = "T"
      ∧ entropyStatus [(⟨"a", "T", 1⟩ : CellRec)] c.name = "low" :=
  C10_nonempty_class_has_low_cell _ "T" (by decide)

theorem firstIdxAux_cases (f : String) :
    ∀ (ts : List String) (k : Nat),
      (firstIdxAux f ts k = -1 ∧ f ∉ ts)
      ∨ (∃ j : Nat, firstIdxAux f ts k = ((k + j : Nat) : Int)
          ∧ ts.get? j = some f ∧ ∀ j' < j, ts.get? j' ≠ some f) := by
  intro ts
  induction ts with
  | nil => intro k; left; exact ⟨rfl, List.not_mem_nil f⟩
  | cons t ts ih =>
    intro k
    by_cases h : t = f
    · right
      refine ⟨0, ?_, ?_, ?_⟩
      · simp [firstIdxAux, h]
      · simp [h]
      · intro j' hj'; omega
    · have hbeq : (t == f) = false := by simp [h]
      rcases ih (k + 1) with ⟨h1, h2⟩ | ⟨j, e, g, m⟩
      · left
        constructor
        · simp [firstIdxAux, hbeq, h1]
        · simp only [List.mem_cons, not_or]
          exact ⟨fun hc => h hc.symm, h2⟩
      · right
        refine ⟨j + 1, ?_, ?_, ?_⟩
        · simp only [firstIdxAux, hbeq, Bool.false_eq_true, if_false]
          rw [e]; congr 1; omega
        · simpa using g
        · intro j' hj'
          cases j' with
          | zero => simp [h]
          | succ j'' =>
            simp only [List.get?_cons_succ]
            exact m j'' (by omega)

theorem firstIdx_cases (targets : List String) (f : String) :
    (firstIdx targets f = -1 ∧ f ∉ targets)
    ∨ (∃ j : Nat, firstIdx targets f = (j : Int)
        ∧ targets.get? j = some f ∧ ∀ j' < j, targets.get? j' ≠ some f) := by
  have := firstIdxAux_cases f targets 0
  simpa [firstIdx] using this

theorem firstIdx_inj {targets : List String} {f f' : String}
    (h : firstIdx targets f = firstIdx targets f')
    (hne : firstIdx targets f ≠ -1) : f = f' := by
  rcases firstIdx_cases targets f with ⟨h1, _⟩ | ⟨j, e, g, _⟩
  · exact absurd h1 hne
  · rcases firstIdx_cases targets f' with ⟨h1', _⟩ | ⟨j', e', g', _⟩
    · rw [h, h1'] at e
      exact absurd e.symm (by simpa using hne)
    · rw [e, e'] at h
      have : j = j' := by exact_mod_cast h
      rw [this] at g
      rw [g'] at g
      exact (Option.some_inj.mp g).symm

theorem alignIndex_filter_nodup (targets : List String) :
    ∀ features : List String, features.Nodup →
      ((alignIndex features targets).filter (fun e => e != -1)).Nodup := by
  intro features
  induction features with
  | nil => intro _; simp [alignIndex]
  | cons f fs ih =>
    intro hnd
    rcases List.nodup_cons.mp hnd with ⟨hf, hfs⟩
    simp only [alignIndex, List.map_cons, List.filter_cons]
    by_cases hb : firstIdx targets f = -1
    · simp only [hb]
      exact ih hfs
    · have hb' : ((firstIdx targets f) != -1) = true := by simp [hb]
      rw [hb']
      simp only [if_true]
      refine List.nodup_cons.mpr ⟨?_, ih hfs⟩
      intro hmem
      have hmem2 : firstIdx targets f ∈ alignIndex fs targets :=
        (List.mem_filter.mp hmem).1
      rcases List.mem_map.mp hmem2 with ⟨f', hf', he⟩
      have : f = f' := firstIdx_inj he.symm hb
      exact hf (this ▸ hf')

/-- C4: the alignment index has one entry per reference feature; entry `i`
is the position of the first target feature equal to reference feature `i`,
or the sentinel `-1` when absent; every non-sentinel entry is a valid
column index into the target; and under pairwise-distinct target and
reference features the non-sentinel entries contain no duplicates. -/
theorem C4_alignment_index_invariants (features targets : List String) :
    (alignIndex features targets).length = features.length
    ∧ (∀ (i : Nat) (f : String), features.get? i = some f →
        ((alignIndex features targets).get? i = some (-1) ∧ f ∉ targets)
        ∨ (∃ j : Nat, (alignIndex features targets).get? i = some (j : Int)
            ∧ targets.get? j = some f ∧ ∀ j' < j, targets.get? j' ≠ some f))
    ∧ (∀ e ∈ alignIndex features targets, e ≠ -1 →
        0 ≤ e ∧ e < (targets.length : Int))
    ∧ (targets.Nodup → features.Nodup →
        ((alignIndex features targets).filter (fun e => e != -1)).Nodup) := by
  refine ⟨List.length_map _ _, ?_, ?_, ?_⟩
  · intro i f hf
    have hf' : features[i]? = some f := by simpa [List.get?_eq_getElem?] using hf
    have hget : (alignIndex features targets).get? i
        = some (firstIdx targets f) := by
      simp [alignIndex, List.get?_eq_getElem?, List.getElem?_map, hf']
    rcases firstIdx_cases targets f with ⟨h1, h2⟩ | ⟨j, e, g, m⟩
    · left; rw [hget, h1]; exact ⟨rfl, h2⟩
    · right; exact ⟨j, by rw [hget, e], g, m⟩
  · intro e he hne
    rcases List.mem_map.mp he with ⟨f, _, rfl⟩
    rcases firstIdx_cases targets f with ⟨h1, _⟩ | ⟨j, hj, g, _⟩
    · exact absurd h1 hne
    · rcases List.get?_eq_some.mp g with ⟨hjlt, _⟩
      rw [hj]
      constructor
      · exact_mod_cast Nat.zero_le j
      · exact_mod_cast hjlt
  · intro _ hfn
    exact alignIndex_filter_nodup targets features hfn

/-- Witness for C4: the spec scenario, reference `[A,B,C]` against target
`[B,C,D]`. -/
theorem C4_alignment_index_invariants_witness :
    ((alignIndex ["A", "B", "C"] ["B", "C", "D"]).filter
      (fun e => e != -1)).Nodup :=
  (C4_alignment_index_invariants ["A", "B", "C"] ["B", "C", "D"]).2.2.2
    (by decide) (by decide)

/-- C5 (code bug): in the spec scenario (reference `[A,B,C]`, target
`[B,C,D]`) the alignment index is `[-1, 0, 1]` and two of three features
match, so the intended coverage check `find_cnt < 0.7*len(features)`
(`2 < 2.1`) calls for a degraded-accuracy warning; but the code as written
evaluates `len(find_cnt)` on the integer counter (`predict.py:57`), which
raises a `TypeError` instead of logging the warning and continuing. -/
theorem C5_coverage_check_raises :
    alignIndex ["A", "B", "C"] ["B", "C", "D"] = [-1, 0, 1]
    ∧ findCnt ["A", "B", "C"] ["B", "C", "D"] = 2
    ∧ ((2 : ℚ) < 7/10 * (3 : ℚ))
    ∧ coverageBranch 2 ["A", "B", "C"]
        = .error "TypeError: object of type int has no len()" := by
  refine ⟨by decide, by decide, by norm_num, rfl⟩

/-- C6 (code bug): re-projecting a target matrix through an alignment
index containing the sentinel `-1` (`test_adata = test_adata[:, feature_idx]`
at `predict.py:62`) silently takes the missing feature's column from the
last existing target column, because numpy wraps negative indices: with
target row `[1,2,3]` and index `[-1,0,1]`, the result is `[[3,1,2]]`, whose
first column equals existing target column 2, not an imputed value and not
a failure. -/
theorem C6_sentinel_wraps_to_last_column :
    reproject [[(1:ℚ), 2, 3]] [-1, 0, 1] = [[3, 1, 2]]
    ∧ (reprojectRow [(1:ℚ), 2, 3] [-1, 0, 1]).getD 0 0
        = [(1:ℚ), 2, 3].getD 2 0
    ∧ (reprojectRow [(1:ℚ), 2, 3] [-1, 0, 1]).length = 3 := by
  refine ⟨by decide, by decide, by decide⟩

theorem lookup_zip_eq_none {x : String} :
    ∀ {L : List String}, x ∉ L → ∀ {W : List String},
      (L.zip W).lookup x = none := by
  intro L
  induction L with
  | nil => intro _ W; cases W <;> rfl
  | cons a L ih =>
    intro hx W
    have hxa : ¬(x = a ∨ x ∈ L) := by simpa [List.mem_cons] using hx
    push_neg at hxa
    cases W with
    | nil => rfl
    | cons b W =>
      simp only [List.zip_cons_cons, List.lookup]
      have hbeq : (x == a) = false := by simp [hxa.1]
      simp only [hbeq]
      exact ih hxa.2

theorem lookup_zip_nodup :
    ∀ {L V : List String}, L.Nodup →
      ∀ (i : Nat) (h : i < L.length) (hv : i < V.length),
        (L.zip V).lookup (L.get ⟨i, h⟩) = some (V.get ⟨i, hv⟩) := by
  intro L
  induction L with
  | nil => intro V _ i h; simp at h
  | cons a L ih =>
    intro V hnd i h hv
    cases V with
    | nil => simp at hv
    | cons b V =>
      rcases List.nodup_cons.mp hnd with ⟨ha, hL⟩
      cases i with
      | zero => simp [List.lookup]
      | succ i =>
        simp only [List.zip_cons_cons, List.lookup, List.get_cons_succ]
        have hne : L.get ⟨i, by simpa using h⟩ ≠ a := by
          intro hc
          exact ha (hc ▸ List.get_mem L i _)
        have hbeq : (L.get ⟨i, by simpa using h⟩ == a) = false :=
          beq_eq_false_iff_ne.mpr hne
        simp only [hbeq]
        have := ih hL i (by simpa using h) (by simpa using hv)
        simpa [List.zip] using this

theorem lookup_pairs :
    ∀ {P : List (String × String)}, (P.map Prod.fst).Nodup →
      ∀ {n v : String}, (n, v) ∈ P → P.lookup n = some v := by
  intro P
  induction P with
  | nil => intro _ n v h; simp at h
  | cons p P ih =>
    intro hnd n v hmem
    rw [List.map_cons] at hnd
    rcases List.nodup_cons.mp hnd with ⟨hp, hP⟩
    rcases List.mem_cons.mp hmem with heq | hmem2
    · cases p with
      | mk k w =>
        have hnk : n = k ∧ v = w := by
          constructor <;> [exact congrArg Prod.fst heq; exact congrArg Prod.snd heq]
        rcases hnk with ⟨rfl, rfl⟩
        simp [List.lookup]
    · have hne : n ≠ p.1 := by
        intro hc
        exact hp (hc ▸ List.mem_map_of_mem Prod.fst hmem2)
      cases p with
      | mk k w =>
        simp only [List.lookup]
        have hbeq : (n == k) = false := by simpa using hne
        simp only [hbeq]
        exact ih hP hmem2

/-- C3: in the two-round output table there is exactly one final label per
cell identifier (the key column of the reconciled table is exactly the
cell-name column, which is duplicate-free); every low-tier cell's final
label is its first-round label; and the high-tier cells receive, in table
order, the student model's argmax labels from the distillation output. -/
theorem C3_reconciled_output (obs : List ObsRow) (yPredTgt : List (List ℚ))
    (encoders : List (Nat × String))
    (hN : (obs.map ObsRow.name).Nodup)
    (hLen : yPredTgt.length = (highNamesOf obs).length) :
    (finalLabels obs yPredTgt encoders).map Prod.fst = obs.map ObsRow.name
    ∧ (∀ r ∈ obs, r.status = "low" →
        (finalLabels obs yPredTgt encoders).lookup r.name
          = some r.firstRound)
    ∧ (∀ (i : Nat) (hi : i < (highNamesOf obs).length),
        (finalLabels obs yPredTgt encoders).lookup
            ((highNamesOf obs).get ⟨i, hi⟩)
          = some ((probToLabel yPredTgt encoders).getD i "")) := by
  have hfst : (finalLabels obs yPredTgt encoders).map Prod.fst
      = obs.map ObsRow.name := by
    simp only [finalLabels, List.map_map]
    rfl
  have hfstnd : ((finalLabels obs yPredTgt encoders).map Prod.fst).Nodup := by
    rw [hfst]; exact hN
  have hHN : (highNamesOf obs).Nodup :=
    ((List.filter_sublist obs).map ObsRow.name).nodup hN
  refine ⟨hfst, ?_, ?_⟩
  · intro r hr hlow
    have hnotin : r.name ∉ highNamesOf obs := by
      intro hmem
      rcases List.mem_map.mp hmem with ⟨r', hr', hname⟩
      have hr'obs : r' ∈ obs := (List.mem_filter.mp hr').1
      have hhigh : r'.status = "high" := by
        simpa using (List.mem_filter.mp hr').2
      have heqr : r' = r := List.inj_on_of_nodup_map hN hr'obs hr hname
      rw [heqr, hlow] at hhigh
      exact absurd hhigh (by decide)
    have hpair : (r.name, r.firstRound)
        ∈ finalLabels obs yPredTgt encoders := by
      simp only [finalLabels, List.mem_map]
      refine ⟨r, hr, ?_⟩
      rw [lookup_zip_eq_none hnotin]
    exact lookup_pairs hfstnd hpair
  · intro i hi
    have hi2 : i < (obs.filter (fun r => r.status == "high")).length := by
      simpa [highNamesOf] using hi
    have hrmem : (obs.filter (fun r => r.status == "high")).get ⟨i, hi2⟩
        ∈ obs :=
      (List.mem_filter.mp (List.get_mem _ i _)).1
    have hname : (highNamesOf obs).get ⟨i, hi⟩
        = ((obs.filter (fun r => r.status == "high")).get ⟨i, hi2⟩).name := by
      simp [highNamesOf, List.get_map]
    have hstudlen : i < (probToLabel yPredTgt encoders).length := by
      simp only [probToLabel, List.length_map]
      omega
    have hlookupz := @lookup_zip_nodup (highNamesOf obs)
      (probToLabel yPredTgt encoders) hHN i hi hstudlen
    have hpair : (((obs.filter (fun r => r.status == "high")).get
          ⟨i, hi2⟩).name,
        (probToLabel yPredTgt encoders).get ⟨i, hstudlen⟩)
        ∈ finalLabels obs yPredTgt encoders := by
      simp only [finalLabels, List.mem_map]
      refine ⟨(obs.filter (fun r => r.status == "high")).get ⟨i, hi2⟩,
        hrmem, ?_⟩
      rw [← hname, hlookupz]
    have hgetD : (probToLabel yPredTgt encoders).getD i ""
        = (probToLabel yPredTgt encoders).get ⟨i, hstudlen⟩ := by
      rw [List.getD_eq_getElem?_getD, List.getElem?_eq_getElem hstudlen]; rfl
    rw [hname, hgetD]
    exact lookup_pairs hfstnd hpair

/-- Witness for C3: two cells, one low-tier keeping its first-round label
`"T"`, one high-tier receiving the student argmax label. -/
theorem C3_reconciled_output_witness :
    (finalLabels [⟨"c1", "T", "low"⟩, ⟨"c2", "B", "high"⟩]
        [[1/10, 9/10]] [(0, "B"), (1, "T")]).map Prod.fst
      = ([⟨"c1", "T", "low"⟩, ⟨"c2", "B", "high"⟩] : List ObsRow).map
          ObsRow.name :=
  (C3_reconciled_output [⟨"c1", "T", "low"⟩, ⟨"c2", "B", "high"⟩]
    [[1/10, 9/10]] [(0, "B"), (1, "T")] (by decide) (by decide)).1

theorem entropyTerm_nonpos {x : ℝ} (h0 : 0 ≤ x) (h1 : x ≤ 1) :
    entropyTerm x ≤ 0 := by
  unfold entropyTerm
  split
  · exact le_refl 0
  · nlinarith [Real.log_nonpos h0 h1]

theorem entropyTerm_eq_zero_iff {x : ℝ} (h0 : 0 ≤ x) :
    entropyTerm x = 0 ↔ x = 0 ∨ x = 1 := by
  unfold entropyTerm
  split
  · rename_i hx; simp [hx]
  · rename_i hx
    constructor
    · intro h
      rcases mul_eq_zero.mp h with h' | h'
      · exact absurd h' hx
      · rcases Real.log_eq_zero.mp h' with h'' | h'' | h''
        · exact Or.inl h''
        · exact Or.inr h''
        · exfalso; rw [h''] at h0; linarith
    · rintro (rfl | rfl)
      · exact absurd rfl hx
      · simp [Real.log_one]

theorem sum_nonpos_list :
    ∀ l : List ℝ, (∀ x ∈ l, x ≤ 0) → l.sum ≤ 0 := by
  intro l
  induction l with
  | nil => intro _; simp
  | cons a t ih =>
    intro h
    have ha := h a (List.mem_cons_self a t)
    have ht := ih (fun x hx => h x (List.mem_cons_of_mem a hx))
    simp only [List.sum_cons]
    linarith

theorem sum_nonpos_eq_zero :
    ∀ l : List ℝ, (∀ x ∈ l, x ≤ 0) → l.sum = 0 → ∀ x ∈ l, x = 0 := by
  intro l
  induction l with
  | nil => intro _ _ x hx; simp at hx
  | cons a t ih =>
    intro h hsum x hx
    have ha := h a (List.mem_cons_self a t)
    have ht := sum_nonpos_list t (fun y hy => h y (List.mem_cons_of_mem a hy))
    rw [List.sum_cons] at hsum
    have ha0 : a = 0 := by linarith
    have hts : t.sum = 0 := by linarith
    rcases List.mem_cons.mp hx with rfl | hx
    · exact ha0
    · exact ih (fun y hy => h y (List.mem_cons_of_mem a hy)) hts x hx

theorem sum_nonneg_eq_zero :
    ∀ l : List ℝ, (∀ x ∈ l, 0 ≤ x) → l.sum = 0 → ∀ x ∈ l, x = 0 := by
  intro l
  induction l with
  | nil => intro _ _ x hx; simp at hx
  | cons a t ih =>
    intro h hsum x hx
    have ha := h a (List.mem_cons_self a t)
    have ht : (0:ℝ) ≤ t.sum :=
      List.sum_nonneg (fun y hy => h y (List.mem_cons_of_mem a hy))
    rw [List.sum_cons] at hsum
    have ha0 : a = 0 := by linarith
    have hts : t.sum = 0 := by linarith
    rcases List.mem_cons.mp hx with rfl | hx
    · exact ha0
    · exact ih (fun y hy => h y (List.mem_cons_of_mem a hy)) hts x hx

theorem exists_unique_one :
    ∀ l : List ℝ, (∀ x ∈ l, x = 0 ∨ x = 1) → l.sum = 1 →
      ∃ i : Fin l.length, l.get i = 1
        ∧ ∀ j : Fin l.length, j ≠ i → l.get j = 0 := by
  intro l
  induction l with
  | nil => intro _ hsum; simp at hsum
  | cons x xs ih =>
    intro h01 hsum
    rw [List.sum_cons] at hsum
    rcases h01 x (List.mem_cons_self x xs) with hx0 | hx1
    · have hxs : xs.sum = 1 := by rw [hx0] at hsum; linarith
      obtain ⟨i, hi, hothers⟩ :=
        ih (fun y hy => h01 y (List.mem_cons_of_mem x hy)) hxs
      refine ⟨i.succ, by simpa using hi, ?_⟩
      rintro ⟨jv, hj⟩ hne
      cases jv with
      | zero => simpa using hx0
      | succ jv' =>
        have hj' : jv' < xs.length := by simpa using hj
        have : (⟨jv', hj'⟩ : Fin xs.length) ≠ i := by
          intro hc
          apply hne
          rw [Fin.ext_iff] at hc ⊢
          simpa using hc
        simpa using hothers ⟨jv', hj'⟩ this
    · have hxs : xs.sum = 0 := by rw [hx1] at hsum; linarith
      have hzero : ∀ y ∈ xs, y = 0 := by
        apply sum_nonneg_eq_zero xs ?_ hxs
        intro y hy
        rcases h01 y (List.mem_cons_of_mem x hy) with rfl | rfl
        · exact le_refl 0
        · exact zero_le_one
      refine ⟨⟨0, by simp⟩, by simpa using hx1, ?_⟩
      rintro ⟨jv, hj⟩ hne
      cases jv with
      | zero => exact absurd (Fin.ext_iff.mpr rfl) hne
      | succ jv' =>
        have hj' : jv' < xs.length := by simpa using hj
        simpa using hzero (xs.get ⟨jv', hj'⟩) (List.get_mem xs jv' hj')

/-- C7: for a class probability distribution (non-negative entries summing
to one), the per-cell entropy `-Σ p_i log p_i` — with the `0·log 0 = 0`
convention realized by `np.nansum` — is non-negative, and is zero exactly
when one entry is `1` and all others are `0`. -/
theorem C7_entropy_nonneg_and_zero_iff (p : List ℝ)
    (hpos : ∀ x ∈ p, 0 ≤ x) (hsum : p.sum = 1) :
    0 ≤ cellEntropy p
    ∧ (cellEntropy p = 0 ↔
        ∃ i : Fin p.length, p.get i = 1
          ∧ ∀ j : Fin p.length, j ≠ i → p.get j = 0) := by
  have hle1 : ∀ x ∈ p, x ≤ 1 := by
    intro x hx
    have := List.single_le_sum hpos x hx
    rw [hsum] at this
    exact this
  have hterm : ∀ t ∈ p.map entropyTerm, t ≤ 0 := by
    intro t ht
    rcases List.mem_map.mp ht with ⟨x, hx, rfl⟩
    exact entropyTerm_nonpos (hpos x hx) (hle1 x hx)
  have hnn : 0 ≤ cellEntropy p := by
    unfold cellEntropy
    have := sum_nonpos_list _ hterm
    linarith
  refine ⟨hnn, ?_, ?_⟩
  · intro h0
    have hsz : (p.map entropyTerm).sum = 0 := by
      unfold cellEntropy at h0
      linarith
    have hall := sum_nonpos_eq_zero _ hterm hsz
    have h01 : ∀ x ∈ p, x = 0 ∨ x = 1 := by
      intro x hx
      exact (entropyTerm_eq_zero_iff (hpos x hx)).mp
        (hall _ (List.mem_map_of_mem entropyTerm hx))
    exact exists_unique_one p h01 hsum
  · rintro ⟨i, hi, hothers⟩
    have h01 : ∀ x ∈ p, x = 0 ∨ x = 1 := by
      intro x hx
      rcases List.mem_iff_get.mp hx with ⟨j, rfl⟩
      by_cases hj : j = i
      · right; rw [hj]; exact hi
      · left; exact hothers j hj
    have hall : ∀ t ∈ p.map entropyTerm, t = 0 := by
      intro t ht
      rcases List.mem_map.mp ht with ⟨x, hx, rfl⟩
      exact (entropyTerm_eq_zero_iff (hpos x hx)).mpr (h01 x hx)
    unfold cellEntropy
    rw [List.sum_eq_zero hall]
    simp

/-- Witness for C7: the point distribution `[1, 0]`. -/
theorem C7_entropy_nonneg_and_zero_iff_witness :
    0 ≤ cellEntropy [1, 0] :=
  (C7_entropy_nonneg_and_zero_iff [1, 0]
    (by intro x hx; rcases List.mem_cons.mp hx with rfl | hx
        · exact zero_le_one
        · rcases List.mem_cons.mp hx with rfl | hx
          · exact le_refl 0
          · simp at hx)
    (by norm_num)).1

/-- C8 (code bug): the two-round branch performs no emptiness or
class-diversity check on the low-tier set before teacher training — with a
class-deficient low tier (first input: every low cell labelled `"T"`) it
proceeds straight to building the one-hot matrix, and the call at
`predict.py:90` passes one argument to the two-parameter
`_label_to_onehot`, so the branch aborts with the same argument
`TypeError` even for a healthy, class-diverse low tier (second input) —
not with the claimed explicit configuration/data error tied to the
low-tier condition. -/
theorem C8_no_validation_before_training :
    secondRoundPreamble [⟨"c1", "T", "low"⟩, ⟨"c2", "T", "low"⟩,
        ⟨"c3", "T", "high"⟩]
      = .error "TypeError: _label_to_onehot() missing 1 required positional argument: encoders"
    ∧ secondRoundPreamble [⟨"c1", "T", "low"⟩, ⟨"c2", "B", "low"⟩,
        ⟨"c3", "B", "high"⟩]
      = .error "TypeError: _label_to_onehot() missing 1 required positional argument: encoders" :=
  ⟨rfl, rfl⟩

/-- C9 counterexample: an encoder file with duplicate label strings
(`0:B`, `1:B`) is accepted — loading succeeds and the resulting mapping is
not a bijection; likewise duplicate indices are silently overwritten
(`0:B`, `0:T` yields `{0: T}`), with no configuration error raised. -/
theorem C9_counterexample_duplicates_accepted :
    loadPredictConfig (some ["GENE1"]) (some ["0:B", "1:B"])
      = .ok (["GENE1"], [(0, "B"), (1, "B")])
    ∧ ¬ encBijective [(0, "B"), (1, "B")]
    ∧ parseEncoders ["0:B", "0:T"] = [(0, "T")] := by
  refine ⟨?_, ?_, by decide⟩
  · show Except.ok (["GENE1"].map pyStrip, parseEncoders ["0:B", "1:B"])
      = Except.ok ((["GENE1"], [(0, "B"), (1, "B")]) :
        List String × List (Nat × String))
    exact congrArg Except.ok (by decide)
  · intro h
    exact absurd h.2 (by decide)

/-- C9 amended: a missing feature file or encoder mapping file makes the
run exit early with the descriptive message at `predict.py:22`; but when
both files exist, loading always succeeds with the parsed mapping —
malformed mappings (duplicate indices or labels) are not rejected. -/
theorem C9_load_behavior (featureLines encoderLines : Option (List String)) :
    ((featureLines = none ∨ encoderLines = none) →
      loadPredictConfig featureLines encoderLines
        = .error PREDICT_EXIT_MSG)
    ∧ (∀ fs es, featureLines = some fs → encoderLines = some es →
        loadPredictConfig featureLines encoderLines
          = .ok (fs.map pyStrip, parseEncoders es)) := by
  constructor
  · intro h
    cases featureLines with
    | none => cases encoderLines <;> rfl
    | some fs =>
      cases encoderLines with
      | none => rfl
      | some es =>
        rcases h with h | h <;> exact absurd h (by simp)
  · intro fs es hf he
    rw [hf, he]
    rfl

/-- Witness for C9 amended: a run with the encoder file missing exits with
the descriptive message. -/
theorem C9_load_behavior_witness :
    loadPredictConfig (some ["GENE1"]) none = .error PREDICT_EXIT_MSG :=
  (C9_load_behavior (some ["GENE1"]) none).1 (Or.inr rfl)
